import Mathlib

/-!
Verification development for `get_wikidata_for_osmwiki.py`, a one-shot batch
transform that fetches country metadata from a SPARQL endpoint, reconciles the
per-property result sets into one row-per-country table keyed by the ISO2
country code, and renders the table as a Lua data structure.

Modelling conventions (shallow embedding):
* A pandas row is an association list from column name to string value.
  `Row.get` returns `""` for a missing column; this models both
  `fillna("")` (applied right after every `pd.DataFrame(...)` construction in
  the script) and `dict.get(key, "")` lookups. `fillna` fills holes in
  columns that exist in the frame (some binding of the result set mentions
  them); a result frame in which a queried column is bound by no binding at
  all makes the script raise `KeyError` — such frames are outside this
  model, and every concrete result frame in this file binds every column
  its consumer accesses in at least one binding.
* `sort_values` is modelled as a stable sort (`sortBy`, an insertion sort).
  The source uses the default `kind='quicksort'`, which pandas documents as
  not stable, so the relative order of rows with equal keys is
  implementation-defined there; `sortBy` is one admissible outcome.
  Statements that would depend on the tie order are made against
  `IsSortValuesResult`, the key-ordered-permutation contract that every
  `sort_values` outcome satisfies, rather than against `sortBy`.
* `groupby(key).first().reset_index()` is modelled by `groupby_first`:
  pandas sorts the group keys ascending and, since every frame has been
  `fillna("")`-ed (no nulls), `first()` returns the first row of each group
  in the frame's current order.
* Python floats are modelled as exact decimal values (`Dec`): the script only
  parses decimal literals, compares against 100, rounds (numpy rounds half to
  even) and re-prints them, and for the magnitudes involved `repr` of the
  float round-trips the decimal literal.
* Fallible steps (`astype(float)` / `int(x)` on non-numeric strings) are
  modelled with `Option`; `none` models the `ValueError` that aborts the run.
-/

namespace OsmWiki

/-- One pandas row / one restructured SPARQL binding: column name to value. -/
abbrev Row := List (String × String)

/-- Column lookup. A missing column yields `""`, modelling the script's
`fillna("")` and `dict.get(key, "")` conventions. -/
def Row.get (r : Row) (k : String) : String :=
  match r.find? (fun p => p.1 == k) with
  | some p => p.2
  | none => ""

/-- Column assignment `df[k] = v` for one row: replace the value in place when
the column exists, otherwise append the new column at the end. -/
def Row.set (r : Row) (k v : String) : Row :=
  if r.any (fun p => p.1 == k) then
    r.map (fun p => bif p.1 == k then (k, v) else p)
  else r ++ [(k, v)]

/-- Lexicographic code-point comparison of character lists; this is how Python
compares strings, hence how pandas sorts an object (string) column. -/
def charListLe : List Char → List Char → Bool
  | [], _ => true
  | _ :: _, [] => false
  | a :: as, b :: bs =>
    if a.toNat < b.toNat then true
    else if b.toNat < a.toNat then false
    else charListLe as bs

/-- String `<=` by Unicode code points, as used by Python/pandas sorts. -/
def strLe (a b : String) : Bool := charListLe a.data b.data

/-- Insert an element into a sorted list, before the first element it is
`le`-related to; later equal elements stay behind it (stability). -/
def insSorted (le : α → α → Bool) (a : α) : List α → List α
  | [] => [a]
  | b :: l => if le a b then a :: b :: l else b :: insSorted le a l

/-- Stable insertion sort, modelling `DataFrame.sort_values`. -/
def sortBy (le : α → α → Bool) : List α → List α
  | [] => []
  | a :: l => insSorted le a (sortBy le l)

/-- First occurrences of each value, in order of first appearance; models
`pandas.Series.unique()`. -/
def uniqueFirstAux (seen : List String) : List String → List String
  | [] => []
  | a :: l =>
    if seen.contains a then uniqueFirstAux seen l
    else a :: uniqueFirstAux (a :: seen) l

/-- First occurrences of each value, in order of first appearance. -/
def uniqueFirst (l : List String) : List String := uniqueFirstAux [] l

/-- The distinct values of column `key`, sorted ascending: these are the group
keys produced by `groupby(key)` (pandas sorts group keys by default). -/
def sortedKeys (key : String) (df : List Row) : List String :=
  sortBy strLe (uniqueFirst (df.map (fun r => r.get key)))

/-- `df.groupby(key).first().reset_index()` on a frame with no nulls: one row
per distinct key value (keys ascending), namely the first row of the group in
the frame's current order. -/
def groupby_first (key : String) (df : List Row) : List Row :=
  (sortedKeys key df).filterMap (fun k => df.find? (fun r => r.get key == k))

/-- Lookup in a Python dict modelled as an association list, with a default:
`d.get(k, dflt)`. -/
def dictGet (d : List (String × String)) (k dflt : String) : String :=
  match d.find? (fun p => p.1 == k) with
  | some p => p.2
  | none => dflt

section SortLemmas

variable {α : Type} (le : α → α → Bool)

theorem insSorted_perm (a : α) (l : List α) :
    List.Perm (insSorted le a l) (a :: l) := by
  induction l with
  | nil => simp [insSorted]
  | cons b l ih =>
    simp only [insSorted]
    by_cases h : le a b = true
    · simp [h]
    · simp only [h]
      exact ((ih.cons b).trans (List.Perm.swap a b l))

theorem sortBy_perm (l : List α) : List.Perm (sortBy le l) l := by
  induction l with
  | nil => simp [sortBy]
  | cons a l ih =>
    exact (insSorted_perm le a (sortBy le l)).trans (ih.cons a)

theorem mem_sortBy {x : α} {l : List α} : x ∈ sortBy le l ↔ x ∈ l :=
  (sortBy_perm le l).mem_iff

theorem mem_insSorted {x a : α} {l : List α} :
    x ∈ insSorted le a l ↔ x = a ∨ x ∈ l := by
  rw [(insSorted_perm le a l).mem_iff, List.mem_cons]

theorem insSorted_pairwise
    (htot : ∀ a b : α, le a b = true ∨ le b a = true)
    (htrans : ∀ a b c : α, le a b = true → le b c = true → le a c = true)
    (a : α) (l : List α) (hl : l.Pairwise (fun x y => le x y = true)) :
    (insSorted le a l).Pairwise (fun x y => le x y = true) := by
  induction l with
  | nil => simp [insSorted]
  | cons b l ih =>
    rcases hl with _ | ⟨hb, hl⟩
    simp only [insSorted]
    by_cases h : le a b = true
    · rw [if_pos h]
      refine List.Pairwise.cons ?_ (List.Pairwise.cons hb hl)
      intro y hy
      rcases List.mem_cons.mp hy with hy | hy
      · exact hy ▸ h
      · exact htrans a b y h (hb y hy)
    · rw [if_neg h]
      refine List.Pairwise.cons ?_ (ih hl)
      intro y hy
      rcases (mem_insSorted le).mp hy with hy | hy
      · rw [hy]
        rcases htot a b with h' | h'
        · exact absurd h' h
        · exact h'
      · exact hb y hy

theorem sortBy_pairwise
    (htot : ∀ a b : α, le a b = true ∨ le b a = true)
    (htrans : ∀ a b c : α, le a b = true → le b c = true → le a c = true)
    (l : List α) : (sortBy le l).Pairwise (fun x y => le x y = true) := by
  induction l with
  | nil => simp [sortBy]
  | cons a l ih => exact insSorted_pairwise le htot htrans a (sortBy le l) ih

end SortLemmas

theorem charListLe_total (a b : List Char) :
    charListLe a b = true ∨ charListLe b a = true := by
  induction a generalizing b with
  | nil => left; rfl
  | cons x xs ih =>
    cases b with
    | nil => right; rfl
    | cons y ys =>
      simp only [charListLe]
      rcases Nat.lt_trichotomy x.toNat y.toNat with h | h | h
      · left; rw [if_pos h]
      · have hxy : ¬ x.toNat < y.toNat := by omega
        have hyx : ¬ y.toNat < x.toNat := by omega
        rw [if_neg hxy, if_neg hyx, if_neg hyx, if_neg hxy]
        exact ih ys
      · right; rw [if_pos h]

theorem charListLe_trans (a b c : List Char)
    (h1 : charListLe a b = true) (h2 : charListLe b c = true) :
    charListLe a c = true := by
  induction a generalizing b c with
  | nil => rfl
  | cons x xs ih =>
    cases b with
    | nil => simp [charListLe] at h1
    | cons y ys =>
      cases c with
      | nil => simp [charListLe] at h2
      | cons z zs =>
        simp only [charListLe] at h1 h2 ⊢
        by_cases hxy : x.toNat < y.toNat
        · by_cases hyz : y.toNat < z.toNat
          · rw [if_pos (Nat.lt_trans hxy hyz)]
          · by_cases hzy : z.toNat < y.toNat
            · rw [if_neg hyz, if_pos hzy] at h2; exact absurd h2 (by simp)
            · have : y.toNat = z.toNat := by omega
              rw [if_pos (this ▸ hxy)]
        · by_cases hyx : y.toNat < x.toNat
          · rw [if_neg hxy, if_pos hyx] at h1; exact absurd h1 (by simp)
          · have hxyeq : x.toNat = y.toNat := by omega
            rw [if_neg hxy, if_neg hyx] at h1
            by_cases hyz : y.toNat < z.toNat
            · rw [if_pos (hxyeq ▸ hyz)]
            · by_cases hzy : z.toNat < y.toNat
              · rw [if_neg hyz, if_pos hzy] at h2; exact absurd h2 (by simp)
              · have hyzeq : y.toNat = z.toNat := by omega
                have hxz : ¬ x.toNat < z.toNat := by omega
                have hzx : ¬ z.toNat < x.toNat := by omega
                rw [if_neg hyz, if_neg hzy] at h2
                rw [if_neg hxz, if_neg hzx]
                exact ih ys zs h1 h2

theorem strLe_total (a b : String) : strLe a b = true ∨ strLe b a = true :=
  charListLe_total a.data b.data

theorem strLe_trans (a b c : String) (h1 : strLe a b = true)
    (h2 : strLe b c = true) : strLe a c = true :=
  charListLe_trans a.data b.data c.data h1 h2

section FindLemmas

variable {α : Type} {p : α → Bool}

theorem find?_eq_some_decomp {l : List α} {r : α} (h : l.find? p = some r) :
    ∃ l1 l2, l = l1 ++ r :: l2 ∧ (∀ x ∈ l1, p x = false) ∧ p r = true := by
  induction l with
  | nil => simp [List.find?] at h
  | cons a l ih =>
    by_cases hpa : p a = true
    · rw [List.find?_cons_of_pos _ hpa] at h
      obtain rfl : a = r := Option.some_inj.mp h
      exact ⟨[], l, rfl, by intro x hx; simp at hx, hpa⟩
    · rw [List.find?_cons_of_neg _ (by simpa using hpa)] at h
      obtain ⟨l1, l2, heq, hl1, hr⟩ := ih h
      refine ⟨a :: l1, l2, by rw [heq, List.cons_append], ?_, hr⟩
      intro x hx
      rcases List.mem_cons.mp hx with hx | hx
      · rw [hx]; simpa using hpa
      · exact hl1 x hx

theorem find?_append_left_none {l1 l2 : List α}
    (h : ∀ x ∈ l1, p x = false) : (l1 ++ l2).find? p = l2.find? p := by
  induction l1 with
  | nil => rfl
  | cons a l1 ih =>
    rw [List.cons_append,
      List.find?_cons_of_neg _ (by simp [h a (List.mem_cons_self a l1)])]
    exact ih (fun x hx => h x (List.mem_cons_of_mem a hx))

theorem find?_eq_head?_filter (l : List α) :
    l.find? p = (l.filter p).head? := by
  induction l with
  | nil => rfl
  | cons a l ih =>
    by_cases hpa : p a = true
    · rw [List.find?_cons_of_pos _ hpa, List.filter_cons_of_pos hpa,
        List.head?_cons]
    · rw [List.find?_cons_of_neg _ (by simpa using hpa),
        List.filter_cons_of_neg (by simpa using hpa)]
      exact ih

end FindLemmas

theorem uniqueFirstAux_sound {a : String} :
    ∀ (l seen : List String), a ∈ uniqueFirstAux seen l → a ∈ l := by
  intro l
  induction l with
  | nil => intro seen h; simp [uniqueFirstAux] at h
  | cons b l ih =>
    intro seen h
    simp only [uniqueFirstAux] at h
    by_cases hb : seen.contains b
    · rw [if_pos hb] at h
      exact List.mem_cons_of_mem b (ih seen h)
    · rw [if_neg hb] at h
      rcases List.mem_cons.mp h with h | h
      · exact h ▸ List.mem_cons_self b l
      · exact List.mem_cons_of_mem b (ih (b :: seen) h)

theorem uniqueFirstAux_nodup :
    ∀ (l seen : List String), (uniqueFirstAux seen l).Nodup ∧
      ∀ a ∈ uniqueFirstAux seen l, a ∉ seen := by
  intro l
  induction l with
  | nil => intro seen; constructor <;> simp [uniqueFirstAux]
  | cons b l ih =>
    intro seen
    simp only [uniqueFirstAux]
    by_cases hb : seen.contains b
    · rw [if_pos hb]; exact ih seen
    · rw [if_neg hb]
      obtain ⟨hnd, hnm⟩ := ih (b :: seen)
      refine ⟨List.Nodup.cons ?_ hnd, ?_⟩
      · intro hmem
        exact (hnm b hmem) (List.mem_cons_self b seen)
      · intro a ha hseen
        rcases List.mem_cons.mp ha with ha | ha
        · exact hb (ha ▸ List.elem_iff.mpr hseen)
        · exact (hnm a ha) (List.mem_cons_of_mem b hseen)

theorem uniqueFirst_nodup (l : List String) : (uniqueFirst l).Nodup :=
  (uniqueFirstAux_nodup l []).1

theorem uniqueFirst_sound {a : String} {l : List String}
    (h : a ∈ uniqueFirst l) : a ∈ l :=
  uniqueFirstAux_sound l [] h

theorem sortedKeys_nodup (key : String) (df : List Row) :
    (sortedKeys key df).Nodup := by
  unfold sortedKeys
  exact ((sortBy_perm strLe _).nodup_iff).mpr (uniqueFirst_nodup _)

theorem mem_sortedKeys {key k : String} {df : List Row}
    (h : k ∈ sortedKeys key df) : ∃ r ∈ df, r.get key = k := by
  have h2 := uniqueFirst_sound ((mem_sortBy strLe).mp h)
  obtain ⟨r, hr, hrk⟩ := List.mem_map.mp h2
  exact ⟨r, hr, hrk⟩

theorem groupby_first_map_get (key : String) (keys : List String)
    (df : List Row) (h : ∀ k ∈ keys, ∃ r ∈ df, r.get key = k) :
    (keys.filterMap (fun k => df.find? (fun r => r.get key == k))).map
      (fun r => r.get key) = keys := by
  induction keys with
  | nil => rfl
  | cons k ks ih =>
    obtain ⟨r0, hr0, hr0k⟩ := h k (List.mem_cons_self k ks)
    obtain ⟨r, hr⟩ : ∃ r, df.find? (fun r => r.get key == k) = some r := by
      cases hf : df.find? (fun r => r.get key == k) with
      | some r => exact ⟨r, rfl⟩
      | none =>
        have := List.find?_eq_none.mp hf r0 hr0
        simp [hr0k] at this
    have hrk : r.get key = k := by
      have := List.find?_some hr
      simpa using this
    simp only [List.filterMap_cons, hr, List.map_cons, hrk]
    rw [ih (fun k' hk' => h k' (List.mem_cons_of_mem k hk'))]

/-- The country-code column of a grouped frame is exactly the sorted list of
distinct keys. -/
theorem groupby_first_codes (key : String) (df : List Row) :
    (groupby_first key df).map (fun r => r.get key) = sortedKeys key df :=
  groupby_first_map_get key _ df (fun _ hk => mem_sortedKeys hk)

theorem mem_groupby_first {key : String} {df : List Row} {r : Row}
    (h : r ∈ groupby_first key df) :
    r ∈ df ∧ df.find? (fun x => x.get key == r.get key) = some r := by
  obtain ⟨k, _, hfind⟩ := List.mem_filterMap.mp h
  have hrk : r.get key = k := by
    have := List.find?_some hfind
    simpa using this
  exact ⟨List.mem_of_find?_eq_some hfind, hrk ▸ hfind⟩

section RowLemmas

/-- One-step unfolding of `Row.get` on a cons cell. -/
theorem row_get_cons (p : String × String) (r : Row) (k : String) :
    Row.get (p :: r) k = cond (p.1 == k) p.2 (Row.get r k) := by
  cases hp : (p.1 == k) with
  | true => simp [Row.get, List.find?_cons, hp]
  | false => simp [Row.get, List.find?_cons, hp]

theorem row_get_nil (k : String) : Row.get [] k = "" := rfl

theorem row_get_map_set_self {k v : String} :
    ∀ (r : Row), Row.get (r.map (fun p => bif p.1 == k then (k, v) else p)) k =
      cond (r.any (fun p => p.1 == k)) v "" := by
  intro r
  induction r with
  | nil => simp [row_get_nil]
  | cons p r ih =>
    cases hp : (p.1 == k) with
    | true => simp [hp, row_get_cons]
    | false => simp [hp, row_get_cons, ih]

theorem row_get_append_single {k v k' : String} (h : k' ≠ k) :
    ∀ (r : Row), Row.get (r ++ [(k, v)]) k' = Row.get r k' := by
  intro r
  have hkk : (k == k') = false := by
    simp only [beq_eq_false_iff_ne, ne_eq]
    exact fun hh => h hh.symm
  induction r with
  | nil => simp [row_get_cons, row_get_nil, hkk]
  | cons p r ih =>
    cases hp : (p.1 == k') with
    | true => simp [row_get_cons, hp]
    | false => simp [row_get_cons, hp, ih]

theorem row_get_map_set_ne {k v k' : String} (h : k' ≠ k) :
    ∀ (r : Row),
      Row.get (r.map (fun p => bif p.1 == k then (k, v) else p)) k' =
        Row.get r k' := by
  intro r
  have hkk : (k == k') = false := by
    simp only [beq_eq_false_iff_ne, ne_eq]
    exact fun hh => h hh.symm
  induction r with
  | nil => rfl
  | cons p r ih =>
    cases hp : (p.1 == k) with
    | true =>
      have hpk' : (p.1 == k') = false := by
        have : p.1 = k := by simpa using hp
        simp only [beq_eq_false_iff_ne, ne_eq, this]
        exact fun hh => h hh.symm
      simp [hp, row_get_cons, hkk, hpk', ih]
    | false => simp [hp, row_get_cons, ih]

theorem row_get_append_missing {k v : String} :
    ∀ (r : Row), (∀ p ∈ r, p.1 ≠ k) → Row.get (r ++ [(k, v)]) k = v := by
  intro r
  induction r with
  | nil => simp [row_get_cons, row_get_nil]
  | cons p r ih =>
    intro hall
    have hp : (p.1 == k) = false := by
      simpa using hall p (List.mem_cons_self p r)
    simp only [List.cons_append, row_get_cons, hp, cond_false]
    exact ih (fun q hq => hall q (List.mem_cons_of_mem p hq))

/-- Reading back the column just assigned returns the assigned value. -/
theorem Row.get_set_self (r : Row) (k v : String) : (r.set k v).get k = v := by
  unfold Row.set
  cases hany : r.any (fun p => p.1 == k) with
  | true => simp [row_get_map_set_self, hany]
  | false =>
    rw [if_neg (by simp [hany])]
    refine row_get_append_missing r ?_
    intro p hp hpk
    have : r.any (fun p => p.1 == k) = true :=
      List.any_eq_true.mpr ⟨p, hp, by simpa using hpk⟩
    rw [this] at hany
    exact absurd hany (by simp)

/-- Assigning one column leaves every other column unchanged. -/
theorem Row.get_set_ne (r : Row) (k k' v : String) (h : k' ≠ k) :
    (r.set k v).get k' = r.get k' := by
  unfold Row.set
  cases hany : r.any (fun p => p.1 == k) with
  | true => simp [row_get_map_set_ne h]
  | false =>
    rw [if_neg (by simp [hany])]
    exact row_get_append_single h r

end RowLemmas

section Stability

variable {α : Type} (sc : α → Nat)

theorem ble_sc_total (a b : α) :
    Nat.ble (sc a) (sc b) = true ∨ Nat.ble (sc b) (sc a) = true := by
  rcases Nat.le_total (sc a) (sc b) with h | h
  · left; simpa using h
  · right; simpa using h

theorem ble_sc_trans (a b c : α) (h1 : Nat.ble (sc a) (sc b) = true)
    (h2 : Nat.ble (sc b) (sc c) = true) : Nat.ble (sc a) (sc c) = true := by
  simp at h1 h2 ⊢
  omega

/-- The row returned by `find?` on a list pairwise ordered by a score is a
`p`-row of minimal score among the `p`-rows of that list. This holds for
every key-ordered list, independently of how ties were ordered. -/
theorem pairwise_find?_min (p : α → Bool) (l' : List α) (r : α)
    (hsorted : l'.Pairwise (fun a b => sc a ≤ sc b))
    (h : l'.find? p = some r) :
    r ∈ l' ∧ p r = true ∧ ∀ x ∈ l', p x = true → sc r ≤ sc x := by
  have hmem : r ∈ l' := List.mem_of_find?_eq_some h
  have hpr : p r = true := List.find?_some h
  obtain ⟨s1, s2, hs, hs1, _⟩ := find?_eq_some_decomp h
  rw [hs] at hsorted
  refine ⟨hmem, hpr, ?_⟩
  intro x hx hpx
  have hxs : x ∈ s1 ++ r :: s2 := hs ▸ hx
  rcases List.mem_append.mp hxs with hx1 | hx2
  · exact absurd hpx (by simp [hs1 x hx1])
  · rcases List.mem_cons.mp hx2 with hx2 | hx2
    · rw [hx2]
    · have hpair := (List.pairwise_append.mp hsorted).2.1
      rcases hpair with _ | ⟨hr, _⟩
      exact hr x hx2

end Stability

/-! ## Source-level definitions -/

/-- Python datatype tag of a property descriptor (`str`, `int`, `float`, or
`list` in the script's descriptor tuples). -/
inductive DType
  | str
  | int
  | float
  | list
deriving DecidableEq

/-- One entry of `wikidata_properties`:
`(property name, wikidata property id, has_date, datatype, get_label)`. -/
structure PropertyDescriptor where
  name : String
  pid : Nat
  has_date : Bool
  datatype : DType
  get_label : Bool
deriving DecidableEq

/-- The script's descriptor list (lines 20-31). -/
def wikidata_properties : List PropertyDescriptor := [
  ⟨"codeiso2", 297, false, DType.str, false⟩,
  ⟨"continent", 30, false, DType.list, true⟩,
  ⟨"area_km2", 2046, false, DType.float, false⟩,
  ⟨"population", 1082, true, DType.int, false⟩,
  ⟨"gdp_bd", 2131, true, DType.float, false⟩,
  ⟨"languages", 37, false, DType.list, true⟩,
  ⟨"flag_image", 41, false, DType.str, false⟩,
  ⟨"locator_map", 242, false, DType.list, false⟩,
  ⟨"osm_rel_id", 402, false, DType.str, false⟩]

/-- Basic (not dated, not list) properties, line 134. -/
def basic_properties : List PropertyDescriptor :=
  wikidata_properties.filter
    (fun f => !f.has_date && !(f.datatype == DType.list))

/-- List-valued properties, line 144. -/
def list_properties : List PropertyDescriptor :=
  wikidata_properties.filter (fun f => f.datatype == DType.list)

/-- Dated properties, line 184. -/
def date_properties : List PropertyDescriptor :=
  wikidata_properties.filter (fun f => f.has_date)

/-- `restructure_json` (lines 40-45): each binding maps a variable name to an
optional value (the `value` field of the wrapper); `val.get("value", "")`
yields `""` when the field is absent. -/
def restructure_json (bindings : List (List (String × Option String))) :
    List Row :=
  bindings.map (fun item => item.map (fun kv => (kv.1, kv.2.getD "")))

/-- Base pass (lines 139-140): drop rows with an empty country code, then
group by code keeping the first row per group. -/
def basePass (result : List Row) : List Row :=
  groupby_first "codeiso2" (result.filter (fun r => r.get "codeiso2" != ""))

/-- Does `pat` occur at the head of the character list? -/
def matchesAt : List Char → List Char → Bool
  | [], _ => true
  | _ :: _, [] => false
  | p :: ps, c :: cs => p == c && matchesAt ps cs

/-- Remove every (non-overlapping, left-to-right) occurrence of the non-empty
pattern, with fuel bounded by the list length; models Python
`str.replace(pat, "")`. -/
def removeAllAux (pat : List Char) : Nat → List Char → List Char
  | _, [] => []
  | 0, l => l
  | f + 1, c :: rest =>
    if 0 < pat.length ∧ matchesAt pat (c :: rest) = true then
      removeAllAux pat f (rest.drop (pat.length - 1))
    else c :: removeAllAux pat f rest

/-- Python `s.replace(pat, "")`. -/
def removeAll (pat s : String) : String :=
  ⟨removeAllAux pat.data s.data.length s.data⟩

/-- Value of a hexadecimal digit character. -/
def hexVal (c : Char) : Option Nat :=
  if 48 ≤ c.toNat ∧ c.toNat ≤ 57 then some (c.toNat - 48)
  else if 65 ≤ c.toNat ∧ c.toNat ≤ 70 then some (c.toNat - 55)
  else if 97 ≤ c.toNat ∧ c.toNat ≤ 102 then some (c.toNat - 87)
  else none

/-- Percent-decoding of `%XX` escapes, modelling `urllib.parse.unquote` on
single-byte (ASCII) sequences; malformed escapes pass through unchanged, as
in Python. Multi-byte UTF-8 escape sequences are not exercised by any data
in this development. -/
def unquoteChars : List Char → List Char
  | [] => []
  | '%' :: a :: b :: rest =>
    match hexVal a, hexVal b with
    | some ha, some hb => Char.ofNat (16 * ha + hb) :: unquoteChars rest
    | _, _ => '%' :: unquoteChars (a :: b :: rest)
  | c :: rest => c :: unquoteChars rest

/-- Python `urllib.parse.unquote` on a string. -/
def unquoteStr (s : String) : String := ⟨unquoteChars s.data⟩

/-- The Wikimedia Commons file prefix stripped from image references. -/
def commonsFilePath : String :=
  "http://commons.wikimedia.org/wiki/Special:FilePath/"

/-- Strip the Commons file prefix and percent-decode, as applied to
`locator_map` (line 165) and `flag_image` (lines 215-216). -/
def cleanImage (s : String) : String := unquoteStr (removeAll commonsFilePath s)

/-- Lines 150-153 for one list property: drop empty-code rows; when the
descriptor requests the human-readable label, substitute the label column
for the raw column. -/
def listPrep (p : PropertyDescriptor) (res : List Row) : List Row :=
  let d := res.filter (fun r => r.get "codeiso2" != "")
  if p.get_label then
    d.map (fun r => r.set p.name (r.get (p.name ++ "Label")))
  else d

/-- Lines 157-159: normalize the two Oceania variant labels to "Oceania"
(the script's `isin` test on `continentLabel`), then keep one continent row
per code. -/
def continentClean (d : List Row) : List Row :=
  groupby_first "codeiso2"
    (d.map (fun r => r.set "continent"
      (if r.get "continentLabel" = "Insular Oceania" ∨
          r.get "continentLabel" = "Australian continent" then "Oceania"
       else r.get "continentLabel")))

/-- Line 162: concatenate all language values per code with `", "`, in row
order (pandas `groupby` preserves the intra-group row order, and group keys
are sorted ascending). -/
def languagesConcat (d : List Row) : List Row :=
  (sortedKeys "codeiso2" d).map (fun k =>
    [("codeiso2", k),
     ("languages", String.intercalate ", "
       ((d.filter (fun r => r.get "codeiso2" == k)).map
         (fun r => r.get "languages")))])

/-- The scoring table of lines 167-171. -/
def locator_map_score_dict : List (String × Nat) :=
  [("orthographic", 2), ("orthographic projection", 1), ("on the globe", 3)]

/-- The net effect of lines 166-173: `locator_map_score_dict.get(x, 99)`
(the loop at 172-173 rewrites the whole score column on every iteration, so
only the exact-lookup-with-default-99 semantics remains). -/
def locatorScore (s : String) : Nat :=
  match locator_map_score_dict.find? (fun p => p.1 == s) with
  | some p => p.2
  | none => 99

/-- Line 165: clean every locator-map candidate value. -/
def cleanedLocatorRows (d : List Row) : List Row :=
  d.map (fun r => r.set "locator_map" (cleanImage (r.get "locator_map")))

/-- The score column of lines 166-173, as a function of the row: the score
of the cleaned `locator_map` value. -/
def locatorRowScore (r : Row) : Nat := locatorScore (r.get "locator_map")

/-- The contract pandas documents for `sort_values` by an integer key with
the default `kind='quicksort'`: the output is some permutation of the input
that is ordered by the key. The kind is documented as not stable, so which
permutation results — in particular the relative order of rows with equal
keys — is implementation-defined. -/
abbrev IsSortValuesResult (sc : Row → Nat) (l l' : List Row) : Prop :=
  List.Perm l' l ∧ l'.Pairwise (fun a b => sc a ≤ sc b)

/-- Line 175 on a given outcome of line 174's sort: keep the first row per
code of the sorted frame. -/
def locatorPassOn (sorted : List Row) : List Row :=
  groupby_first "codeiso2" sorted

/-- Lines 165-175: clean the candidates, sort by score ascending, and keep
the first row per code. The sort models line 174's `sort_values` with the
stable `sortBy`; the source's default quicksort kind fixes no tie order, so
`locatorPass` is one admissible execution (any `IsSortValuesResult` outcome
is admissible), not a tie-order guarantee. -/
def locatorPass (d : List Row) : List Row :=
  locatorPassOn
    (sortBy (fun a b => Nat.ble (locatorRowScore a) (locatorRowScore b))
      (cleanedLocatorRows d))

/-- `restructure_dated_property` (lines 107-112): drop empty-code rows, sort
by the property's date column descending (stable model of `sort_values`;
the conclusions drawn about this pass do not depend on the tie order), keep
the first row per code, and return the code-to-value mapping. `Row.get`'s
`""` default implements `fillna("")` for rows missing a column that some
other binding of the same frame provides; a result frame in which the code,
date or value column is bound by no binding at all makes the source raise
`KeyError` at lines 109-112 and is outside this model — every dated result
frame used in this file binds all three columns. -/
def restructure_dated_property (rows : List Row) (nameattribute : String) :
    List (String × String) :=
  let df := rows.filter (fun r => r.get "codeiso2" != "")
  let dfs := sortBy (fun a b =>
    strLe (b.get ("date_" ++ nameattribute))
      (a.get ("date_" ++ nameattribute))) df
  (groupby_first "codeiso2" dfs).map
    (fun r => (r.get "codeiso2", r.get nameattribute))

/-! ## Numbers: Python floats modelled as exact decimals -/

/-- Exact decimal number: value is `man / 10 ^ exp`, with no trailing zero in
the fractional digits after parsing (Python float repr is normalized). -/
structure Dec where
  man : Int
  exp : Nat
deriving DecidableEq

/-- Character of a decimal digit. -/
def digitChar (n : Nat) : Char := Char.ofNat (48 + n)

/-- Decimal digits of a natural number, least significant first, with fuel. -/
def natCharsRev : Nat → Nat → List Char
  | 0, _ => []
  | f + 1, n =>
    if n < 10 then [digitChar n]
    else digitChar (n % 10) :: natCharsRev f (n / 10)

/-- Decimal digits of a natural number, most significant first. -/
def natChars (n : Nat) : List Char := (natCharsRev (n + 1) n).reverse

/-- Insert a comma after every group of three characters; input and output
are least-significant-first digit lists. -/
def group3 : List Char → List Char
  | a :: b :: c :: d :: rest => a :: b :: c :: ',' :: group3 (d :: rest)
  | l => l

/-- Digits of `n` with thousands separators, most significant first:
the integer part of Python's `f"\x7bx:,\x7d"` formatting. -/
def commaDigits (n : Nat) : List Char := (group3 (natCharsRev (n + 1) n)).reverse

/-- Python `f"\x7bx:,\x7d"` on an integer. -/
def intWithCommas (i : Int) : String :=
  if i < 0 then ⟨'-' :: commaDigits i.natAbs⟩ else ⟨commaDigits i.natAbs⟩

/-- Fractional digits of a `Dec`, zero-padded on the left to `e` digits. -/
def fracChars (n : Nat) (e : Nat) : List Char :=
  List.replicate (e - (natChars n).length) '0' ++ natChars n

/-- Python `f"\x7bx:,\x7d"` on a float: optional sign, comma-grouped integer
part, a decimal point, then the fractional digits (a float always prints at
least one fractional digit, `".0"` for whole numbers). -/
def Dec.fmtChars (d : Dec) : List Char :=
  let p := 10 ^ d.exp
  let n := d.man.natAbs
  (if d.man < 0 then ['-'] else []) ++ commaDigits (n / p) ++
    '.' :: (if d.exp = 0 then ['0'] else fracChars (n % p) d.exp)

/-- Python `f"\x7bx:,\x7d"` on a float, as a string. -/
def Dec.fmt (d : Dec) : String := ⟨d.fmtChars⟩

/-- Is the decimal value at least 100 (`df["area_km2"] >= 100`)? -/
def Dec.ge100 (d : Dec) : Bool := decide ((100 : Int) * 10 ^ d.exp ≤ d.man)

/-- Round `n / p` (with `p > 0`) to the nearest natural, ties to even — the
rounding used by `numpy.round`. -/
def roundHalfEvenNat (n p : Nat) : Nat :=
  let q := n / p
  let r := n % p
  if 2 * r < p then q
  else if p < 2 * r then q + 1
  else if q % 2 = 0 then q else q + 1

/-- `numpy.round` on a `Dec`: round to the nearest integer, ties to even
(symmetric under negation, as in numpy). -/
def Dec.roundHE (d : Dec) : Int :=
  let m := roundHalfEvenNat d.man.natAbs (10 ^ d.exp)
  if d.man < 0 then -(m : Int) else (m : Int)

/-- All characters are decimal digits. -/
def allDigits (l : List Char) : Bool := l.all (fun c => c.isDigit)

/-- Numeric value of a digit list, most significant first. -/
def digitsToNat (l : List Char) : Nat :=
  l.foldl (fun acc c => acc * 10 + (c.toNat - 48)) 0

/-- Split a character list at the first `'.'`. -/
def splitDot : List Char → List Char × Option (List Char)
  | [] => ([], none)
  | '.' :: rest => ([], some rest)
  | c :: rest =>
    let q := splitDot rest
    (c :: q.1, q.2)

/-- Drop trailing `'0'` characters (float repr normalization). -/
def trimZeros (l : List Char) : List Char :=
  (l.reverse.dropWhile (fun c => c == '0')).reverse

/-- Parse an unsigned decimal literal into an exact `Dec`. -/
def parseDecChars (l : List Char) : Option Dec :=
  let q := splitDot l
  let fp := q.2.getD []
  if allDigits q.1 && allDigits fp && decide (0 < q.1.length + fp.length)
  then
    let fp' := trimZeros fp
    some ⟨(digitsToNat (q.1 ++ fp') : Int), fp'.length⟩
  else none

/-- Python `float(s)` on the plain decimal literals occurring in the data,
as an exact decimal value; `none` models the `ValueError` raised on any
other string (in particular on the empty string). -/
def parseDec (s : String) : Option Dec :=
  match s.data with
  | '-' :: rest => (parseDecChars rest).map (fun d => ⟨-d.man, d.exp⟩)
  | l => parseDecChars l

/-- Python `int(s)` on the integer literals occurring in the data; `none`
models the `ValueError` on any other string. -/
def parseI (s : String) : Option Int :=
  match s.data with
  | '-' :: rest =>
    if allDigits rest && decide (0 < rest.length)
    then some (-(digitsToNat rest : Int)) else none
  | l =>
    if allDigits l && decide (0 < l.length)
    then some ((digitsToNat l : Int)) else none

/-- Lines 205-209: `astype(float)`, round values at or above 100 to the
nearest integer (numpy half-to-even), format with thousands separators, and
strip a trailing `".0"`. -/
def formatArea (d : Dec) : String :=
  let d' : Dec := if d.ge100 then ⟨d.roundHE, 0⟩ else d
  let s := d'.fmtChars
  if s.reverse.take 2 = ['0', '.'] then ⟨s.take (s.length - 2)⟩ else ⟨s⟩

/-- Line 205-209 on a raw column value: parsing failure (`ValueError` of
`astype(float)`, e.g. on an empty string) is `none`. -/
def formatAreaStr (s : String) : Option String := (parseDec s).map formatArea

/-- Line 211: population renders as `f"\x7bint(x):,\x7d"` when the string is
truthy (non-empty), else as the empty string; `none` models the
`ValueError` of `int(x)` on a non-integer non-empty string. -/
def formatPopulation (x : String) : Option String :=
  if x = "" then some "" else (parseI x).map intWithCommas

/-- Python `"\x7b:.1f\x7d".format(v)` on an exact decimal: one fractional
digit, ties to even, no thousands separators. -/
def fmt1f (d : Dec) : String :=
  let scaled := roundHalfEvenNat (d.man.natAbs * 10) (10 ^ d.exp)
  ⟨(if d.man < 0 ∧ scaled ≠ 0 then ['-'] else []) ++ natChars (scaled / 10) ++
    '.' :: [digitChar (scaled % 10)]⟩

/-- Line 213: GDP renders as the value divided by one billion to one decimal
place when the string is truthy, else as the empty string. -/
def formatGdp (x : String) : Option String :=
  if x = "" then some ""
  else (parseDec x).map (fun d => fmt1f ⟨d.man, d.exp + 9⟩)

/-! ## Merge pass, final cleanup and Lua rendering -/

/-- A property's final per-code values as a mapping (lines 178-180 and the
dict comprehension of line 112). -/
def conversionDict (df : List Row) (name : String) :
    List (String × String) :=
  df.map (fun r => (r.get "codeiso2", r.get name))

/-- Line 197: attach a resolved mapping as a new column, joining on the
country code; codes absent from the mapping receive `""`
(`dictval.get(x, "")`). -/
def mergeColumn (df : List Row) (key : String)
    (dict : List (String × String)) : List Row :=
  df.map (fun r => r.set key (dictGet dict (r.get "codeiso2") ""))

/-- Column assignment from a per-row function (`df[k] = ...`). -/
def dfSet (df : List Row) (k : String) (f : Row → String) : List Row :=
  df.map (fun r => r.set k (f r))

/-- Fallible column transformation: `none` as soon as `f` rejects a value
(an uncaught `ValueError` aborts the script). -/
def applyColM (k : String) (f : String → Option String) :
    List Row → Option (List Row)
  | [] => some []
  | r :: rest =>
    match f (r.get k) with
    | none => none
    | some v => (applyColM k f rest).map (fun d => r.set k v :: d)

/-- Lines 146-175 for one list property: prepare the frame, then apply the
reduction the script performs on that named frame (`continent`, `languages`
and `locator_map` each get their specific treatment; any other list
property would be left as prepared). -/
def listPass (p : PropertyDescriptor) (res : List Row) : List Row :=
  let d := listPrep p res
  if p.name = "continent" then continentClean d
  else if p.name = "languages" then languagesConcat d
  else if p.name = "locator_map" then locatorPass d
  else d

/-- The `__main__` transform after the network fetches (lines 131-220):
`basicRes` is the restructured basic-query result, `listRes` and `datedRes`
give the restructured result of each per-property query. Returns the final
frame, or `none` when a formatting step raises. -/
def pipelineDf (basicRes : List Row) (listRes : String → List Row)
    (datedRes : String → List Row) : Option (List Row) :=
  let df0 := basePass basicRes
  let listDicts := list_properties.map
    (fun p => (p.name, conversionDict (listPass p (listRes p.name)) p.name))
  let dateDicts := date_properties.map
    (fun p => (p.name, restructure_dated_property (datedRes p.name) p.name))
  let df1 := (listDicts ++ dateDicts).foldl
    (fun df kd => mergeColumn df kd.1 kd.2) df0
  let df2 := dfSet df1 "name" (fun r => r.get "countryLabel")
  (applyColM "area_km2" formatAreaStr df2).bind fun df3 =>
  (applyColM "population" formatPopulation df3).bind fun df4 =>
  (applyColM "gdp_bd" formatGdp df4).map fun df5 =>
  let df6 := dfSet df5 "flag_image" (fun r => cleanImage (r.get "flag_image"))
  let df7 := dfSet df6 "wikipedia" (fun r =>
    unquoteStr (removeAll "https://en.wikipedia.org/wiki/"
      (r.get "wikipedia")))
  dfSet df7 "wikidata_id" (fun r =>
    removeAll "http://www.wikidata.org/entity/" (r.get "country"))

/-- Line 116: sort the table by display name. -/
def sortByName (df : List Row) : List Row :=
  sortBy (fun a b => strLe (a.get "name") (b.get "name")) df

/-- Line 117 on the name-sorted frame: the distinct codes, in order of first
appearance (`Series.unique`). -/
def luaCountryCodes (dfs : List Row) : List String :=
  uniqueFirst (dfs.map (fun r => r.get "codeiso2"))

/-- One rendered sub-table entry (line 123): `CODE = "value"`. -/
def luaRowRender (row : Row) (item : String) : String :=
  row.get "codeiso2" ++ " = \"" ++ row.get item ++ "\""

/-- The entries of one property's sub-table (line 123) on a name-sorted
frame: rows with a truthy (non-empty) code, in frame order. -/
def luaSubtableRowsOf (dfs : List Row) (item : String) : List String :=
  (dfs.filter (fun row => row.get "codeiso2" != "")).map
    (fun row => luaRowRender row item)

/-- The named sub-tables (lines 121-124): one per selected property other
than `codeiso2`, in the selected order. -/
def luaSubtables (df : List Row) (selected_property : List String) :
    List (String × List String) :=
  (selected_property.filter (fun item => item != "codeiso2")).map
    (fun item => (item, luaSubtableRowsOf (sortByName df) item))

/-- `process_lua_data` (lines 115-128); `today` stands for
`datetime.today().strftime("%Y-%m-%d")`. -/
def process_lua_data (df : List Row) (selected_property : List String)
    (today : String) : String :=
  let dfs := sortByName df
  "-- begin data section\ndata = \x7b\n\n    countrylist = \x7b" ++
    String.intercalate ", "
      ((luaCountryCodes dfs).map (fun v => "\"" ++ v ++ "\"")) ++
    "\x7d,\n\n" ++
    String.join
      ((selected_property.filter (fun item => item != "codeiso2")).map
        (fun item => "    " ++ item ++ " = \x7b" ++
          String.intercalate ", " (luaSubtableRowsOf dfs item) ++
          "\x7d,\n\n")) ++
    "\x7d\n\n" ++ "last_update = \"" ++ today ++ "\"\n-- end data section"

/-- The property list passed to `process_lua_data` (line 226). -/
def selected_properties : List String :=
  wikidata_properties.map (fun f => f.name) ++
    ["name", "wikipedia", "wikidata_id"]

/-! ## Synthetic two-entity dataset (spec section 8, end-to-end property) -/

/-- Synthetic base result: entity Q1 has code `"AX"`, entity Q2 has no
country code. -/
def synthBasic : List Row := [
  [("country", "http://www.wikidata.org/entity/Q1"),
   ("countryLabel", "Aland"),
   ("wikipedia", "https://en.wikipedia.org/wiki/Aland"),
   ("codeiso2", "AX"),
   ("area_km2", "1580"),
   ("flag_image",
    "http://commons.wikimedia.org/wiki/Special:FilePath/Aland%20flag.svg"),
   ("osm_rel_id", "1650407")],
  [("country", "http://www.wikidata.org/entity/Q2"),
   ("countryLabel", "Zetaland"),
   ("wikipedia", "https://en.wikipedia.org/wiki/Zetaland")]]

/-- Synthetic list-query results for the two entities. -/
def synthList (n : String) : List Row :=
  if n = "continent" then
    [[("country", "http://www.wikidata.org/entity/Q1"),
      ("countryLabel", "Aland"), ("codeiso2", "AX"),
      ("continentLabel", "Europe"), ("continent", "Q46")],
     [("country", "http://www.wikidata.org/entity/Q2"),
      ("countryLabel", "Zetaland"),
      ("continentLabel", "Insular Oceania"), ("continent", "Q538")]]
  else if n = "languages" then
    [[("country", "http://www.wikidata.org/entity/Q1"),
      ("countryLabel", "Aland"), ("codeiso2", "AX"),
      ("languagesLabel", "Swedish"), ("languages", "Q9027")]]
  else if n = "locator_map" then
    [[("country", "http://www.wikidata.org/entity/Q1"),
      ("countryLabel", "Aland"), ("codeiso2", "AX"),
      ("locator_map",
       "http://commons.wikimedia.org/wiki/Special:FilePath/Aland%20map.png")]]
  else []

/-- Synthetic dated-query results: Q1 has one dated statement for each of
the two dated properties, so every queried column (code, value, date) is
bound in each result frame, as `restructure_dated_property` requires. -/
def synthDated (n : String) : List Row :=
  if n = "population" then
    [[("country", "http://www.wikidata.org/entity/Q1"),
      ("population", "29789"), ("date_population", "2020-01-01"),
      ("codeiso2", "AX")]]
  else if n = "gdp_bd" then
    [[("country", "http://www.wikidata.org/entity/Q1"),
      ("gdp_bd", "1845000000"), ("date_gdp_bd", "2021-01-01"),
      ("codeiso2", "AX")]]
  else []

/-! ## Support lemmas about the passes -/

theorem charListLe_refl (l : List Char) : charListLe l l = true := by
  induction l with
  | nil => rfl
  | cons a l ih => simp [charListLe, ih]

theorem strLe_refl (s : String) : strLe s s = true := charListLe_refl s.data

/-- The row selected by `find?` on a list stably sorted by date descending
carries the maximal date among the matching rows. -/
theorem sortBy_find?_max_date (dcol : String) (p : Row → Bool) (l : List Row)
    (r : Row)
    (h : (sortBy (fun a b => strLe (b.get dcol) (a.get dcol)) l).find? p =
      some r) :
    r ∈ l ∧ p r = true ∧
      ∀ x ∈ l, p x = true → strLe (x.get dcol) (r.get dcol) = true := by
  have hperm := sortBy_perm (fun a b => strLe (b.get dcol) (a.get dcol)) l
  have hmem : r ∈ l := hperm.mem_iff.mp (List.mem_of_find?_eq_some h)
  have hpr : p r = true := List.find?_some h
  obtain ⟨s1, s2, hs, hs1, _⟩ := find?_eq_some_decomp h
  have hsorted := sortBy_pairwise
    (fun a b => strLe (b.get dcol) (a.get dcol))
    (fun a b => strLe_total (b.get dcol) (a.get dcol))
    (fun a b c h1 h2 =>
      strLe_trans (c.get dcol) (b.get dcol) (a.get dcol) h2 h1) l
  rw [hs] at hsorted
  refine ⟨hmem, hpr, ?_⟩
  intro x hx hpx
  have hxs : x ∈ s1 ++ r :: s2 := by
    rw [← hs]
    exact hperm.mem_iff.mpr hx
  rcases List.mem_append.mp hxs with hx1 | hx2
  · exact absurd hpx (by simp [hs1 x hx1])
  · rcases List.mem_cons.mp hx2 with hx2 | hx2
    · rw [hx2]
      exact strLe_refl _
    · have hpair := (List.pairwise_append.mp hsorted).2.1
      rcases hpair with _ | ⟨hr, _⟩
      exact hr x hx2

/-- The country-code column of a frame. -/
def codesOf (df : List Row) : List String :=
  df.map (fun r => r.get "codeiso2")

theorem mergeColumn_codes (df : List Row) (key : String)
    (dict : List (String × String)) (h : key ≠ "codeiso2") :
    codesOf (mergeColumn df key dict) = codesOf df := by
  unfold codesOf mergeColumn
  rw [List.map_map]
  exact List.map_congr_left (fun r _ =>
    Row.get_set_ne r key "codeiso2" _ (Ne.symm h))

theorem dfSet_codes (df : List Row) (k : String) (f : Row → String)
    (h : k ≠ "codeiso2") : codesOf (dfSet df k f) = codesOf df := by
  unfold codesOf dfSet
  rw [List.map_map]
  exact List.map_congr_left (fun r _ =>
    Row.get_set_ne r k "codeiso2" _ (Ne.symm h))

theorem applyColM_codes (k : String) (f : String → Option String)
    (h : k ≠ "codeiso2") :
    ∀ (df df' : List Row), applyColM k f df = some df' →
      codesOf df' = codesOf df := by
  intro df
  induction df with
  | nil =>
    intro df' h'
    simp only [applyColM, Option.some_inj] at h'
    rw [← h']
  | cons r rest ih =>
    intro df' h'
    unfold applyColM at h'
    cases hf : f (r.get k) with
    | none => rw [hf] at h'; exact absurd h' (by simp)
    | some v =>
      rw [hf] at h'
      rcases Option.map_eq_some'.mp h' with ⟨rest', hrest, hdf⟩
      subst hdf
      unfold codesOf at ih ⊢
      simp only [List.map_cons]
      rw [Row.get_set_ne r k "codeiso2" v (Ne.symm h), ih rest' hrest]

theorem foldl_merge_codes :
    ∀ (kds : List (String × List (String × String))) (df : List Row),
      (∀ kd ∈ kds, kd.1 ≠ "codeiso2") →
      codesOf (kds.foldl (fun df kd => mergeColumn df kd.1 kd.2) df) =
        codesOf df := by
  intro kds
  induction kds with
  | nil => intro df _; rfl
  | cons kd kds ih =>
    intro df h
    simp only [List.foldl_cons]
    rw [ih _ (fun x hx => h x (List.mem_cons_of_mem kd hx)),
      mergeColumn_codes df kd.1 kd.2 (h kd (List.mem_cons_self kd kds))]

theorem basePass_nonempty (result : List Row) :
    ∀ r ∈ basePass result, r.get "codeiso2" ≠ "" := by
  intro r hr
  obtain ⟨hmem, _⟩ := mem_groupby_first hr
  have := (List.mem_filter.mp hmem).2
  simpa using this

theorem basePass_codes_nodup (result : List Row) :
    (codesOf (basePass result)).Nodup := by
  unfold codesOf basePass
  rw [groupby_first_codes]
  exact sortedKeys_nodup _ _

theorem pipelineDf_codes (basicRes : List Row)
    (listRes datedRes : String → List Row) (df : List Row)
    (h : pipelineDf basicRes listRes datedRes = some df) :
    codesOf df = codesOf (basePass basicRes) := by
  simp only [pipelineDf] at h
  rcases Option.bind_eq_some.mp h with ⟨df3, h3, h'⟩
  rcases Option.bind_eq_some.mp h' with ⟨df4, h4, h''⟩
  rcases Option.map_eq_some'.mp h'' with ⟨df5, h5, hdf⟩
  subst hdf
  rw [dfSet_codes _ _ _ (by decide), dfSet_codes _ _ _ (by decide),
    dfSet_codes _ _ _ (by decide),
    applyColM_codes _ _ (by decide) _ _ h5,
    applyColM_codes _ _ (by decide) _ _ h4,
    applyColM_codes _ _ (by decide) _ _ h3,
    dfSet_codes _ _ _ (by decide)]
  rw [foldl_merge_codes]
  intro kd hkd
  rcases List.mem_append.mp hkd with hk | hk
  · rcases List.mem_map.mp hk with ⟨p, hp, hpe⟩
    have hall : ∀ q ∈ list_properties, q.name ≠ "codeiso2" := by decide
    rw [← hpe]
    exact hall p hp
  · rcases List.mem_map.mp hk with ⟨p, hp, hpe⟩
    have hall : ∀ q ∈ date_properties, q.name ≠ "codeiso2" := by decide
    rw [← hpe]
    exact hall p hp

/-! ## Claim theorems -/

/-- C1: after the base pass (filter rows with empty country code, group by
code, keep the first row per group) every record in the base table has a
non-empty country code and codes are unique across rows; and since every
later pass only rewrites non-code columns, the final exported frame — the
source of every exported table — still has only non-empty, unique codes, so
an entity whose country code is empty appears in no exported table. -/
theorem base_table_code_invariants :
    (∀ result : List Row, ∀ r ∈ basePass result, r.get "codeiso2" ≠ "") ∧
    (∀ result : List Row, (codesOf (basePass result)).Nodup) ∧
    (∀ (basicRes : List Row) (listRes datedRes : String → List Row)
        (df : List Row), pipelineDf basicRes listRes datedRes = some df →
      (∀ r ∈ df, r.get "codeiso2" ≠ "") ∧ (codesOf df).Nodup) := by
  refine ⟨basePass_nonempty, basePass_codes_nodup, ?_⟩
  intro basicRes listRes datedRes df h
  have hc := pipelineDf_codes basicRes listRes datedRes df h
  constructor
  · intro r hr
    have hmem : r.get "codeiso2" ∈ codesOf df :=
      List.mem_map_of_mem _ hr
    rw [hc] at hmem
    rcases List.mem_map.mp hmem with ⟨rb, hrb, hrbe⟩
    rw [← hrbe]
    exact basePass_nonempty basicRes rb hrb
  · rw [hc]
    exact basePass_codes_nodup basicRes

/-- Witness for C1 at a concrete input: the surviving synthetic row has a
non-empty code. -/
theorem base_table_code_invariants_witness :
    Row.get [("country", "http://www.wikidata.org/entity/Q1"),
      ("countryLabel", "Aland"),
      ("wikipedia", "https://en.wikipedia.org/wiki/Aland"),
      ("codeiso2", "AX"), ("area_km2", "1580"),
      ("flag_image",
       "http://commons.wikimedia.org/wiki/Special:FilePath/Aland%20flag.svg"),
      ("osm_rel_id", "1650407")] "codeiso2" ≠ "" :=
  base_table_code_invariants.1 synthBasic _ (by decide)

/-- C2: for every dated property, after discarding empty-code rows, the
value resolved for a code comes from a row of that code whose date string
is maximal (the rows are sorted by the date field descending and the first
row per group is kept); concretely, between dates "2020-01-01" and
"2022-06-01" the 2022 value is selected. -/
theorem dated_latest_value_wins :
    (∀ (rows : List Row) (nameattribute c v : String),
      (c, v) ∈ restructure_dated_property rows nameattribute →
      ∃ r ∈ rows, r.get "codeiso2" = c ∧ r.get nameattribute = v ∧
        ∀ x ∈ rows, x.get "codeiso2" = c →
          strLe (x.get ("date_" ++ nameattribute))
            (r.get ("date_" ++ nameattribute)) = true) ∧
    restructure_dated_property
      [[("codeiso2", "AA"), ("population", "p2020"),
        ("date_population", "2020-01-01")],
       [("codeiso2", "AA"), ("population", "p2022"),
        ("date_population", "2022-06-01")]] "population" =
      [("AA", "p2022")] := by
  constructor
  · intro rows nameattribute c v hcv
    simp only [restructure_dated_property] at hcv
    rcases List.mem_map.mp hcv with ⟨row, hrow, hre⟩
    cases hre
    obtain ⟨_, hfind⟩ := mem_groupby_first hrow
    obtain ⟨hrdf, _, hmax⟩ :=
      sortBy_find?_max_date ("date_" ++ nameattribute)
        (fun x => x.get "codeiso2" == row.get "codeiso2") _ row hfind
    have hrmem : row ∈ rows := (List.mem_filter.mp hrdf).1
    have hrne : row.get "codeiso2" ≠ "" := by
      have := (List.mem_filter.mp hrdf).2
      simpa using this
    refine ⟨row, hrmem, rfl, rfl, ?_⟩
    intro x hx hxc
    have hxdf : x ∈ rows.filter (fun r => r.get "codeiso2" != "") := by
      refine List.mem_filter.mpr ⟨hx, ?_⟩
      rw [hxc]
      simpa using hrne
    exact hmax x hxdf (by simp [hxc])
  · decide

/-- Witness for C2 at the concrete two-row input from the spec. -/
theorem dated_latest_value_wins_witness :
    ∃ r ∈ ([[("codeiso2", "AA"), ("population", "p2020"),
        ("date_population", "2020-01-01")],
       [("codeiso2", "AA"), ("population", "p2022"),
        ("date_population", "2022-06-01")]] : List Row),
      r.get "codeiso2" = "AA" ∧ r.get "population" = "p2022" ∧
      ∀ x ∈ ([[("codeiso2", "AA"), ("population", "p2020"),
          ("date_population", "2020-01-01")],
         [("codeiso2", "AA"), ("population", "p2022"),
          ("date_population", "2022-06-01")]] : List Row),
        x.get "codeiso2" = "AA" →
        strLe (x.get ("date_" ++ "population"))
          (r.get ("date_" ++ "population")) = true :=
  dated_latest_value_wins.1 _ "population" "AA" "p2022" (by decide)

/-- C4: for the languages property, each output row carries the values of
all rows sharing its code, concatenated with ", " in result (source) order
and no trailing separator; one row per code. -/
theorem languages_concat_source_order :
    (∀ (d : List Row) (r : Row), r ∈ languagesConcat d →
      r.get "languages" = String.intercalate ", "
        ((d.filter (fun x => x.get "codeiso2" == r.get "codeiso2")).map
          (fun x => x.get "languages"))) ∧
    (∀ d : List Row, (codesOf (languagesConcat d)).Nodup) ∧
    languagesConcat
      [[("codeiso2", "AA"), ("languages", "Zulu")],
       [("codeiso2", "AA"), ("languages", "Afrikaans")]] =
      [[("codeiso2", "AA"), ("languages", "Zulu, Afrikaans")]] := by
  refine ⟨?_, ?_, by decide⟩
  · intro d r hr
    simp only [languagesConcat] at hr
    rcases List.mem_map.mp hr with ⟨k, _, hre⟩
    subst hre
    rfl
  · intro d
    unfold codesOf languagesConcat
    rw [List.map_map]
    have : ∀ k ∈ sortedKeys "codeiso2" d,
        ((fun r : Row => r.get "codeiso2") ∘ (fun k => [("codeiso2", k),
          ("languages", String.intercalate ", "
            ((d.filter (fun r => r.get "codeiso2" == k)).map
              (fun r => r.get "languages")))])) k = k :=
      fun k _ => rfl
    rw [List.map_congr_left this]
    simpa using sortedKeys_nodup "codeiso2" d

/-- Witness for C4 at a concrete two-row input. -/
theorem languages_concat_source_order_witness :
    Row.get [("codeiso2", "AA"), ("languages", "Zulu, Afrikaans")]
        "languages" =
      String.intercalate ", "
        (([[("codeiso2", "AA"), ("languages", "Zulu")],
           [("codeiso2", "AA"), ("languages", "Afrikaans")]].filter
            (fun x : Row => x.get "codeiso2" ==
              Row.get [("codeiso2", "AA"),
                ("languages", "Zulu, Afrikaans")] "codeiso2")).map
          (fun x : Row => x.get "languages")) :=
  languages_concat_source_order.1
    [[("codeiso2", "AA"), ("languages", "Zulu")],
     [("codeiso2", "AA"), ("languages", "Afrikaans")]]
    [("codeiso2", "AA"), ("languages", "Zulu, Afrikaans")] (by decide)

/-- C10: locator-map scoring is exact whole-string equality on the cleaned
value: a rank below 99 arises only for the three literal phrases; any other
value — in particular a full filename merely containing such a phrase —
scores the default 99. -/
theorem locator_score_exact_match :
    (∀ s : String, locatorScore s = 99 ∨
      (s = "orthographic" ∧ locatorScore s = 2) ∨
      (s = "orthographic projection" ∧ locatorScore s = 1) ∨
      (s = "on the globe" ∧ locatorScore s = 3)) ∧
    locatorScore "Europe on the globe (red).svg" = 99 ∧
    locatorScore "Iceland (orthographic projection).svg" = 99 := by
  refine ⟨?_, by decide, by decide⟩
  intro s
  by_cases h1 : s = "orthographic"
  · subst h1
    right; left
    exact ⟨rfl, by decide⟩
  by_cases h2 : s = "orthographic projection"
  · subst h2
    right; right; left
    exact ⟨rfl, by decide⟩
  by_cases h3 : s = "on the globe"
  · subst h3
    right; right; right
    exact ⟨rfl, by decide⟩
  left
  have e1 : ("orthographic" == s) = false := by
    simp only [beq_eq_false_iff_ne, ne_eq]
    exact fun hh => h1 hh.symm
  have e2 : ("orthographic projection" == s) = false := by
    simp only [beq_eq_false_iff_ne, ne_eq]
    exact fun hh => h2 hh.symm
  have e3 : ("on the globe" == s) = false := by
    simp only [beq_eq_false_iff_ne, ne_eq]
    exact fun hh => h3 hh.symm
  simp [locatorScore, locator_map_score_dict, List.find?_cons, e1, e2, e3]

/-- C3 counterexample: ties are NOT guaranteed to be broken by original
result order. Two same-code candidates both score the default 99; the
swapped order is an admissible outcome of line 174's `sort_values` contract
(a score-ordered permutation — the default quicksort kind is documented as
not stable), and on it the pass keeps the candidate that came second in the
original result order. -/
theorem locator_tie_order_not_guaranteed :
    IsSortValuesResult locatorRowScore
      (cleanedLocatorRows
        [[("codeiso2", "AA"), ("locator_map", "A.png")],
         [("codeiso2", "AA"), ("locator_map", "B.png")]])
      [[("codeiso2", "AA"), ("locator_map", "B.png")],
       [("codeiso2", "AA"), ("locator_map", "A.png")]] ∧
    locatorPassOn
      [[("codeiso2", "AA"), ("locator_map", "B.png")],
       [("codeiso2", "AA"), ("locator_map", "A.png")]] =
      [[("codeiso2", "AA"), ("locator_map", "B.png")]] ∧
    cleanedLocatorRows
      [[("codeiso2", "AA"), ("locator_map", "A.png")],
       [("codeiso2", "AA"), ("locator_map", "B.png")]] =
      [[("codeiso2", "AA"), ("locator_map", "A.png")],
       [("codeiso2", "AA"), ("locator_map", "B.png")]] ∧
    ([("codeiso2", "AA"), ("locator_map", "B.png")] : Row) ≠
      [("codeiso2", "AA"), ("locator_map", "A.png")] := by decide

/-- C3 (amended): each candidate image value (after prefix stripping and
percent-decoding) is scored by the fixed lookup table (three named
projection types rank 1-3, every other value 99), and for every sort
outcome admissible for `sort_values` — any score-ordered permutation; the
default quicksort kind fixes no tie order — the row kept per code has
minimal score among the cleaned rows of its code. The script's modelled
stable sort is one such admissible outcome, and on the spec's example the
"orthographic projection" candidate (score 1) is selected. -/
theorem locator_map_lowest_score :
    (∀ (d s' : List Row) (r : Row),
      IsSortValuesResult locatorRowScore (cleanedLocatorRows d) s' →
      r ∈ locatorPassOn s' →
      r ∈ cleanedLocatorRows d ∧
      ∀ x ∈ cleanedLocatorRows d, x.get "codeiso2" = r.get "codeiso2" →
        locatorRowScore r ≤ locatorRowScore x) ∧
    (∀ d : List Row,
      IsSortValuesResult locatorRowScore (cleanedLocatorRows d)
        (sortBy (fun a b => Nat.ble (locatorRowScore a) (locatorRowScore b))
          (cleanedLocatorRows d)) ∧
      locatorPass d = locatorPassOn
        (sortBy (fun a b => Nat.ble (locatorRowScore a) (locatorRowScore b))
          (cleanedLocatorRows d))) ∧
    locatorPass
      [[("codeiso2", "AA"), ("locator_map",
        "http://commons.wikimedia.org/wiki/Special:FilePath/AA%20globe.png")],
       [("codeiso2", "AA"), ("locator_map", "orthographic projection")],
       [("codeiso2", "AA"), ("locator_map", "on the globe")]] =
      [[("codeiso2", "AA"), ("locator_map", "orthographic projection")]] := by
  refine ⟨?_, ?_, by decide⟩
  · intro d s' r hcontract hr
    obtain ⟨hperm, hsorted⟩ := hcontract
    simp only [locatorPassOn] at hr
    obtain ⟨_, hfind⟩ := mem_groupby_first hr
    obtain ⟨hmem, _, hmin⟩ := pairwise_find?_min locatorRowScore
      (fun x => x.get "codeiso2" == r.get "codeiso2") s' r hsorted hfind
    refine ⟨hperm.mem_iff.mp hmem, ?_⟩
    intro x hx hxc
    exact hmin x (hperm.mem_iff.mpr hx) (by simp [hxc])
  · intro d
    refine ⟨⟨sortBy_perm _ _, ?_⟩, rfl⟩
    exact (sortBy_pairwise _ (ble_sc_total locatorRowScore)
        (ble_sc_trans locatorRowScore) (cleanedLocatorRows d)).imp
      (fun h => by simpa using h)

/-- Witness for C3's amended theorem at the spec's concrete candidate set,
with the sorted frame given explicitly. -/
theorem locator_map_lowest_score_witness :
    ([("codeiso2", "AA"), ("locator_map", "orthographic projection")] :
        Row) ∈
      cleanedLocatorRows
        [[("codeiso2", "AA"), ("locator_map",
          "http://commons.wikimedia.org/wiki/Special:FilePath/AA%20globe.png")],
         [("codeiso2", "AA"), ("locator_map", "orthographic projection")],
         [("codeiso2", "AA"), ("locator_map", "on the globe")]] :=
  (locator_map_lowest_score.1 _
    [[("codeiso2", "AA"), ("locator_map", "orthographic projection")],
     [("codeiso2", "AA"), ("locator_map", "on the globe")],
     [("codeiso2", "AA"), ("locator_map", "AA globe.png")]] _
    (by constructor
        · decide
        · decide)
    (by decide)).1

theorem find?_map_fst (key : String) (f : Option String → String) :
    ∀ (item : List (String × Option String)),
      (item.map (fun kv => (kv.1, f kv.2))).find? (fun p => p.1 == key) =
        (item.find? (fun kv => kv.1 == key)).map
          (fun kv => (kv.1, f kv.2)) := by
  intro item
  induction item with
  | nil => rfl
  | cons kv item ih =>
    cases hk : (kv.1 == key) with
    | true => simp [List.map_cons, List.find?_cons, hk]
    | false => simp [List.map_cons, List.find?_cons, hk, ih]

/-- Failing input for C5: an entity with a non-empty code whose area value
is the empty-string placeholder (no area statement). -/
def crashBasic : List Row := [
  [("country", "http://www.wikidata.org/entity/Q9"),
   ("countryLabel", "Nulland"),
   ("wikipedia", "https://en.wikipedia.org/wiki/Nulland"),
   ("codeiso2", "ZZ"), ("area_km2", ""), ("flag_image", ""),
   ("osm_rel_id", "")]]

/-- List-query results accompanying `crashBasic`. -/
def crashList (n : String) : List Row :=
  [[("country", "http://www.wikidata.org/entity/Q9"), ("codeiso2", "ZZ"),
    (n, ""), (n ++ "Label", "")]]

/-- Dated-query results accompanying `crashBasic`. -/
def crashDated (n : String) : List Row :=
  [[("country", "http://www.wikidata.org/entity/Q9"), ("codeiso2", "ZZ"),
    (n, ""), ("date_" ++ n, "")]]

/-- C5 counterexample: a non-transport condition that does NOT degrade to an
empty-string placeholder — an entity with a non-empty code but an empty
area string makes `astype(float)` raise, so the run fails (`none`). -/
theorem empty_string_degradation_cex :
    pipelineDf crashBasic crashList crashDated = none ∧
    formatAreaStr "" = none := by decide

/-- C5 (amended): the empty-string degradations hold for the two lookup
conditions the code guards — a variable whose binding lacks a value wrapper
yields `""` in the restructured row, and during the merge pass a code
absent from a property's resolved mapping receives `""` — but empty numeric
strings still make the area formatting step fail, so the blanket
no-failure part of the claim is dropped. -/
theorem empty_string_degradation :
    (∀ (bindings : List (List (String × Option String)))
        (item : List (String × Option String)) (key : String),
      item ∈ bindings →
      item.find? (fun kv => kv.1 == key) = some (key, none) →
      (item.map (fun kv => (kv.1, kv.2.getD ""))) ∈
          restructure_json bindings ∧
        Row.get (item.map (fun kv => (kv.1, kv.2.getD ""))) key = "") ∧
    (∀ (df : List Row) (key : String) (dict : List (String × String))
        (r : Row), r ∈ df →
      dict.find? (fun p => p.1 == r.get "codeiso2") = none →
      r.set key "" ∈ mergeColumn df key dict ∧
        (r.set key "").get key = "") := by
  constructor
  · intro bindings item key hmem hfind
    refine ⟨List.mem_map_of_mem _ hmem, ?_⟩
    unfold Row.get
    rw [find?_map_fst key (fun o => o.getD "") item, hfind]
    rfl
  · intro df key dict r hr hnone
    have hdg : dictGet dict (r.get "codeiso2") "" = "" := by
      unfold dictGet
      rw [hnone]
    constructor
    · unfold mergeColumn
      have h2 : r.set key "" =
          r.set key (dictGet dict (r.get "codeiso2") "") := by rw [hdg]
      rw [h2]
      exact List.mem_map_of_mem _ hr
    · exact Row.get_set_self r key ""

/-- Witness for C5's amended theorem at a concrete binding. -/
theorem empty_string_degradation_witness :
    ([("codeiso2", "AX"), ("area_km2", "")] : Row) ∈
        restructure_json [[("codeiso2", some "AX"), ("area_km2", none)]] ∧
      Row.get [("codeiso2", "AX"), ("area_km2", "")] "area_km2" = "" :=
  empty_string_degradation.1
    [[("codeiso2", some "AX"), ("area_km2", none)]]
    [("codeiso2", some "AX"), ("area_km2", none)] "area_km2"
    (by decide) (by decide)

theorem natCharsRev_cons (n : Nat) :
    ∃ t, natCharsRev (n + 1) n = digitChar (n % 10) :: t := by
  unfold natCharsRev
  by_cases h : n < 10
  · rw [if_pos h]
    exact ⟨[], by rw [Nat.mod_eq_of_lt h]⟩
  · rw [if_neg h]
    exact ⟨_, rfl⟩

theorem digitChar_ne_zero (m : Nat) (h1 : m < 10) (h2 : m ≠ 0) :
    digitChar m ≠ '0' := by
  interval_cases m
  · exact absurd rfl h2
  all_goals decide

theorem take_two_ne (c : Char) (hc : c ≠ '0') (l : List Char) :
    (c :: l).take 2 ≠ ['0', '.'] := by
  intro heq
  have h2 : (c :: l).take 2 = c :: l.take 1 := rfl
  rw [h2] at heq
  injection heq with h3 _
  exact hc h3

/-- C7: area values at or above 100 are rounded to the nearest whole number
(numpy half-to-even) before thousands-separator formatting and the trailing
".0" a whole-number float prints is then stripped; smaller values with a
(normalized) fractional part are printed unchanged, so they retain their
decimal precision; concretely 83871.4 renders as "83,871" and 61.2 as
"61.2". -/
theorem area_formatting_rules :
    (∀ d : Dec, d.ge100 = true →
      formatArea d = intWithCommas d.roundHE) ∧
    (∀ d : Dec, d.ge100 = false → d.exp ≠ 0 → d.man.natAbs % 10 ≠ 0 →
      formatArea d = d.fmt) ∧
    formatAreaStr "83871.4" = some "83,871" ∧
    formatAreaStr "61.2" = some "61.2" := by
  refine ⟨?_, ?_, by decide, by decide⟩
  · intro d hge
    have hle : (100 : Int) * 10 ^ d.exp ≤ d.man := of_decide_eq_true hge
    have hpos : (0 : Int) < 100 * 10 ^ d.exp := by positivity
    have hman : 0 ≤ d.man := le_trans (le_of_lt hpos) hle
    have hrnn : 0 ≤ d.roundHE := by
      simp only [Dec.roundHE]
      rw [if_neg (by omega)]
      exact Int.natCast_nonneg _
    have hs : (Dec.mk d.roundHE 0).fmtChars =
        commaDigits d.roundHE.natAbs ++ ['.', '0'] := by
      simp [Dec.fmtChars, Int.not_lt.mpr hrnn]
    simp only [formatArea, hge, if_true, hs]
    rw [List.reverse_append,
      show (['.', '0'] : List Char).reverse = ['0', '.'] from rfl,
      List.take_left' (by rfl :
        (['0', '.'] : List Char).length = 2)]
    rw [if_pos rfl]
    rw [List.length_append,
      show (['.', '0'] : List Char).length = 2 from rfl,
      Nat.add_sub_cancel, List.take_left]
    simp only [intWithCommas]
    rw [if_neg (by omega)]
  · intro d hge hexp hlast
    have hfmt : d.fmtChars =
        (if d.man < 0 then ['-'] else []) ++
          commaDigits (d.man.natAbs / 10 ^ d.exp) ++
          '.' :: fracChars (d.man.natAbs % 10 ^ d.exp) d.exp := by
      simp only [Dec.fmtChars, if_neg hexp]
    have hm10 : d.man.natAbs % 10 ^ d.exp % 10 = d.man.natAbs % 10 :=
      Nat.mod_mod_of_dvd _ (dvd_pow_self 10 hexp)
    obtain ⟨t, ht⟩ := natCharsRev_cons (d.man.natAbs % 10 ^ d.exp)
    have hcond : d.fmtChars.reverse.take 2 ≠ ['0', '.'] := by
      rw [hfmt]
      simp only [fracChars, natChars, List.reverse_append,
        List.reverse_cons, List.reverse_reverse, List.append_assoc, ht,
        List.cons_append]
      apply take_two_ne
      rw [hm10]
      exact digitChar_ne_zero _ (Nat.mod_lt _ (by omega)) hlast
    simp only [formatArea, hge, if_false, Bool.false_eq_true,
      if_neg hcond]
    rfl

/-- Witness for C7 at the spec's first concrete area value. -/
theorem area_formatting_rules_witness :
    formatArea ⟨838714, 1⟩ = intWithCommas (Dec.roundHE ⟨838714, 1⟩) :=
  area_formatting_rules.1 ⟨838714, 1⟩ (by decide)

/-- C8 counterexample: the population string "0" is truthy in Python, so a
zero-like population renders as "0", not as the empty string. -/
theorem population_zero_renders_zero :
    formatPopulation "0" = some "0" ∧
      (some "0" : Option String) ≠ some "" := by
  constructor
  · decide
  · decide

/-- C8 (amended): an empty population value renders as the empty string, and
every other (integer-parsing) value — including "0" — is rendered as an
integer with thousands separators. -/
theorem population_formatting :
    formatPopulation "" = some "" ∧
    (∀ (s : String) (n : Int), s ≠ "" → parseI s = some n →
      formatPopulation s = some (intWithCommas n)) ∧
    formatPopulation "29789000" = some "29,789,000" := by
  refine ⟨rfl, ?_, by decide⟩
  intro s n hs hp
  unfold formatPopulation
  rw [if_neg hs, hp]
  rfl

/-- Witness for C8's amended theorem at a concrete value. -/
theorem population_formatting_witness :
    formatPopulation "123456" = some (intWithCommas 123456) :=
  population_formatting.2.1 "123456" 123456 (by decide) (by decide)

/-- C9 counterexample: `codeiso2` is a requested property (the first one in
the descriptor list) yet the generated structure contains no sub-table
named `codeiso2` — the script skips it explicitly. -/
theorem lua_codeiso2_subtable_missing :
    "codeiso2" ∈ selected_properties ∧
    "codeiso2" ∉ (luaSubtables [[("codeiso2", "AA"), ("name", "A")]]
        selected_properties).map Prod.fst := by
  constructor
  · decide
  · decide

/-- C9 (amended): the generated structure contains one named sub-table for
every requested property except the country-code property `codeiso2` itself
(rendered as `countrylist` instead), in descriptor-list order; each
sub-table maps code to string-quoted value, restricted to rows with a
non-empty code, in the order of the table sorted by display name (the
name-sorted frame is a permutation of the input, pairwise ordered by
name). -/
theorem lua_structure_layout :
    (∀ (df : List Row) (sel : List String),
      (luaSubtables df sel).map Prod.fst =
        sel.filter (fun item => item != "codeiso2")) ∧
    (∀ (df : List Row) (sel : List String) (t : String × List String),
      t ∈ luaSubtables df sel →
      t.2 = ((sortByName df).filter
          (fun row => row.get "codeiso2" != "")).map
        (fun row => row.get "codeiso2" ++ " = \"" ++ row.get t.1 ++ "\"")) ∧
    (∀ df : List Row, List.Perm (sortByName df) df) ∧
    (∀ df : List Row, (sortByName df).Pairwise
      (fun a b => strLe (a.get "name") (b.get "name") = true)) := by
  refine ⟨?_, ?_, ?_, ?_⟩
  · intro df sel
    unfold luaSubtables
    rw [List.map_map]
    have : ∀ item ∈ sel.filter (fun item => item != "codeiso2"),
        (Prod.fst ∘ (fun item => (item,
          luaSubtableRowsOf (sortByName df) item))) item = item :=
      fun item _ => rfl
    rw [List.map_congr_left this]
    simp
  · intro df sel t ht
    rcases List.mem_map.mp ht with ⟨item, _, hte⟩
    subst hte
    rfl
  · intro df
    exact sortBy_perm _ df
  · intro df
    exact sortBy_pairwise _
      (fun a b => strLe_total (a.get "name") (b.get "name"))
      (fun a b c h1 h2 =>
        strLe_trans (a.get "name") (b.get "name") (c.get "name") h1 h2) df

/-- Witness for C9's amended theorem at a concrete one-row table. -/
theorem lua_structure_layout_witness :
    (("name", luaSubtableRowsOf
        (sortByName [[("codeiso2", "AA"), ("name", "A")]]) "name") :
      String × List String).2 =
      ((sortByName [[("codeiso2", "AA"), ("name", "A")]]).filter
          (fun row => row.get "codeiso2" != "")).map
        (fun row => row.get "codeiso2" ++ " = \"" ++
          row.get ("name", luaSubtableRowsOf
            (sortByName [[("codeiso2", "AA"), ("name", "A")]]) "name").1 ++
          "\"") :=
  lua_structure_layout.2.1 [[("codeiso2", "AA"), ("name", "A")]] ["name"]
    ("name", luaSubtableRowsOf
      (sortByName [[("codeiso2", "AA"), ("name", "A")]]) "name")
    (by decide)

/-- C6: on the synthetic two-entity dataset in which exactly one entity has
a non-empty country code, the pipeline succeeds, the rendered structure's
countrylist contains exactly one code, and every per-property sub-table
contains at most one entry. -/
theorem synthetic_two_entity_end_to_end :
    (pipelineDf synthBasic synthList synthDated).map (fun df =>
      ((luaCountryCodes (sortByName df)).length,
        selected_properties.all (fun item =>
          Nat.ble (luaSubtableRowsOf (sortByName df) item).length 1))) =
      some (1, true) := by decide

end OsmWiki
